import Mathlib

/-
Shallow embedding of the Board State Manager core of
src/src/App.tsx (Trello-style task board).

JavaScript records (`Record<string, T>`) are embedded as functions
`String → Option T`; record spread update `{...m, [k]: v}` becomes
`updateRecord`, and the `delete m[k]` statement becomes `eraseRecord`.
State-updating handlers become functions `… → BoardData → Option BoardData`;
a `none` result models a thrown TypeError (an `undefined` property access
inside the updater), after which no new state is produced.
-/

set_option autoImplicit false

namespace TaskBoard

/-- Embeds the `Task` object. The TypeScript type declares `id : string`,
but the edit path `{...prev.tasks[id], content}` spreads `undefined` when
the key is absent, producing an object with no `id` field at runtime, so
the embedding gives the field type `Option String`. -/
structure Task where
  id : Option String
  content : String
deriving DecidableEq

/-- Embeds the `Column` object of the first source variant
(`id`, `title`, `color`, `accent`, `taskIds`). -/
structure Column where
  id : String
  title : String
  color : String
  accent : String
  taskIds : List String
deriving DecidableEq

/-- Embeds `BoardData`: `tasks` and `columns` are string-keyed records,
`columnOrder` the ordered list of column ids. -/
structure BoardData where
  tasks : String → Option Task
  columns : String → Option Column
  columnOrder : List String

/-- Record update `{...m, [k]: v}`. -/
def updateRecord {α : Type} (m : String → Option α) (k : String) (v : α) :
    String → Option α :=
  fun s => if s = k then some v else m s

/-- Record key removal `delete m[k]` (a no-op when the key is absent). -/
def eraseRecord {α : Type} (m : String → Option α) (k : String) :
    String → Option α :=
  fun s => if s = k then none else m s

/-- JS `arr.splice(i, 1)`: remove the element at index `i`; an index at or
beyond the length removes nothing (splice clamps the start index). -/
def spliceRemove {α : Type} (l : List α) (i : Nat) : List α :=
  l.take i ++ l.drop (i + 1)

/-- JS `arr.splice(i, 0, a)`: insert `a` at index `i`; an index at or beyond
the length appends at the end (splice clamps the start index). -/
def spliceInsert {α : Type} (l : List α) (i : Nat) (a : α) : List α :=
  l.take i ++ a :: l.drop i

/-- JS `String.prototype.trim`: strip whitespace from both ends, here
computed on the character list (Lean's own `String.trim` is defined via
well-founded recursion on byte positions and does not evaluate in the
kernel; this definition is its executable equivalent). -/
def jsTrim (s : String) : String :=
  String.mk (((s.data.dropWhile Char.isWhitespace).reverse.dropWhile
    Char.isWhitespace).reverse)

/-- The entries of `DEFAULT_COLUMNS`. -/
structure DefaultColumn where
  id : String
  title : String
  color : String
  accent : String

/-- The `DEFAULT_COLUMNS` constant. -/
def DEFAULT_COLUMNS : List DefaultColumn :=
  [⟨"todo", "To Do", "bg-blue-100", "bg-blue-500"⟩,
   ⟨"inprogress", "In Progress", "bg-yellow-100", "bg-yellow-500"⟩,
   ⟨"done", "Done", "bg-green-100", "bg-green-500"⟩]

/-- Embeds `getInitialData` on a fresh browser (no saved snapshot): the default
empty board, columns built by the `forEach` loop over `DEFAULT_COLUMNS`. -/
def initialBoard : BoardData :=
  { tasks := fun _ => none
  , columns :=
      DEFAULT_COLUMNS.foldl
        (fun m col => updateRecord m col.id
          { id := col.id, title := col.title, color := col.color
          , accent := col.accent, taskIds := [] })
        (fun _ => none)
  , columnOrder := DEFAULT_COLUMNS.map (fun c => c.id) }

/-- The `modalTask` state consumed by `handleModalSave`. -/
structure ModalTask where
  id : Option String
  content : String
  columnId : String

/-- JS truthiness of `modalTask.id` (an `undefined` or empty-string id is
falsy, so it selects the create branch). -/
def truthy : Option String → Bool
  | none => false
  | some s => s != ""

/-- Embeds `handleModalSave`, as a function of the modal state, the current value
of `Date.now()` and the previous board. Returns the board passed to
`setBoard` (or the unchanged board when the handler returns early);
`none` models the TypeError thrown when the create branch reads
`prev.columns[modalTask.columnId].taskIds` of a missing column. -/
def handleModalSave (modalTask : Option ModalTask) (now : Nat)
    (prev : BoardData) : Option BoardData :=
  match modalTask with
  | none => some prev
  | some mt =>
    if jsTrim mt.content = "" then some prev
    else if truthy mt.id then
      -- Edit: `{...prev.tasks, [id]: {...prev.tasks[id], content}}`.
      -- When `truthy mt.id` holds, `mt.id.getD ""` is the id string.
      let key := mt.id.getD ""
      some { prev with
        tasks := updateRecord prev.tasks key
          { id := (prev.tasks key).bind Task.id, content := mt.content } }
    else
      -- New: `const id = "task-" + Date.now()`.
      let id := "task-" ++ toString now
      match prev.columns mt.columnId with
      | none => none
      | some col =>
        some { prev with
          tasks := updateRecord prev.tasks id { id := some id, content := mt.content }
        , columns := updateRecord prev.columns mt.columnId
            { col with taskIds := id :: col.taskIds } }

/-- The `deleting` state consumed by `confirmDelete`. -/
structure Deleting where
  taskId : String
  columnId : String

/-- Embeds `confirmDelete`: removes the key from `tasks` (a silent no-op when
absent) and filters the id out of the supplied column only. `none` models
the TypeError on `prev.columns[deleting.columnId].taskIds` of a missing
column. -/
def confirmDelete (deleting : Option Deleting) (prev : BoardData) :
    Option BoardData :=
  match deleting with
  | none => some prev
  | some d =>
    match prev.columns d.columnId with
    | none => none
    | some col =>
      some { prev with
        tasks := eraseRecord prev.tasks d.taskId
      , columns := updateRecord prev.columns d.columnId
          { col with taskIds := col.taskIds.filter (fun i => i != d.taskId) } }

/-- A drop location of a `DropResult` (`droppableId`, `index`). -/
structure DropLocation where
  droppableId : String
  index : Nat
deriving DecidableEq

/-- The fields of `DropResult` that `onDragEnd` destructures. -/
structure DropResult where
  draggableId : String
  source : DropLocation
  destination : Option DropLocation

/-- Embeds `onDragEnd`. The source's same-column test `start === finish` is
object identity; the columns record of this app maps distinct keys to
distinct objects and equal keys to the same object, so (when both lookups
succeed) it is embedded as equality of the droppable ids. A failed lookup
makes the updater throw (`Array.from(undefined.taskIds)`), embedded as
`none`. The updated entries are keyed by the column objects' own `id`
fields, exactly as in the source (`[newColumn.id]: newColumn`). -/
def onDragEnd (result : DropResult) (prev : BoardData) : Option BoardData :=
  match result.destination with
  | none => some prev
  | some destination =>
    if destination.droppableId = result.source.droppableId ∧
        destination.index = result.source.index then
      some prev
    else
      match prev.columns result.source.droppableId,
            prev.columns destination.droppableId with
      | some start, some finish =>
        if result.source.droppableId = destination.droppableId then
          -- Moving within same column
          let newTaskIds :=
            spliceInsert (spliceRemove start.taskIds result.source.index)
              destination.index result.draggableId
          let newColumn : Column := { start with taskIds := newTaskIds }
          some { prev with
            columns := updateRecord prev.columns newColumn.id newColumn }
        else
          -- Moving to another column
          let startTaskIds := spliceRemove start.taskIds result.source.index
          let newStart : Column := { start with taskIds := startTaskIds }
          let finishTaskIds :=
            spliceInsert finish.taskIds destination.index result.draggableId
          let newFinish : Column := { finish with taskIds := finishTaskIds }
          some { prev with
            columns := updateRecord (updateRecord prev.columns newStart.id newStart)
              newFinish.id newFinish }
      | _, _ => none

/-! ### Observations and invariants -/

/-- The task-id sequence of column `c` (empty for a missing column). -/
def colTaskIds (b : BoardData) (c : String) : List String :=
  ((b.columns c).map Column.taskIds).getD []

/-- Total number of references to id `k` across the columns listed in
`columnOrder`. -/
def refCount (b : BoardData) (k : String) : Nat :=
  (b.columnOrder.map (fun c => (colTaskIds b c).count k)).sum

/-- Invariant 1: every id in every column's `taskIds` is a key of `tasks`. -/
def Inv1 (b : BoardData) : Prop :=
  ∀ c col, b.columns c = some col → ∀ k ∈ col.taskIds, (b.tasks k).isSome

/-- Invariant 2: every key of `tasks` appears in exactly one column's
`taskIds`, with no duplicates (total reference count one). -/
def Inv2 (b : BoardData) : Prop :=
  ∀ k, (b.tasks k).isSome → refCount b k = 1

/-- Invariant 3: `columnOrder` is a duplicate-free permutation of the keys
of `columns`. -/
def Inv3 (b : BoardData) : Prop :=
  b.columnOrder.Nodup ∧ ∀ c, (b.columns c).isSome ↔ c ∈ b.columnOrder

/-- Auxiliary well-formedness: each column object's `id` field equals its
record key (the app's handlers re-use that field as the update key). -/
def KeyConsistent (b : BoardData) : Prop :=
  ∀ c col, b.columns c = some col → col.id = c

/-- Auxiliary well-formedness: every stored content trims non-empty. -/
def ContentOk (b : BoardData) : Prop :=
  ∀ k t, b.tasks k = some t → jsTrim t.content ≠ ""

/-- The inductive well-formedness maintained by valid operations. -/
structure GoodBoard (b : BoardData) : Prop where
  inv1 : Inv1 b
  inv2 : Inv2 b
  inv3 : Inv3 b
  keyCons : KeyConsistent b
  contentOk : ContentOk b

/-! ### The operations of the Board State Manager, and validity

The spec's four operations correspond to the three source handlers:
`createTask` and `editTask` are the two branches of `handleModalSave`
(the create branch parameterised by the value of `Date.now()`),
`deleteTask` is `confirmDelete`, `moveTask` is `onDragEnd`. -/

inductive Op where
  | createTask (columnId content : String) (now : Nat)
  | editTask (taskId columnId content : String)
  | deleteTask (taskId columnId : String)
  | moveTask (result : DropResult)

/-- Run one operation through the corresponding source handler.
`Date.now()` is only read in the create branch, so the other handlers
are passed an arbitrary clock value. -/
def applyOp : Op → BoardData → Option BoardData
  | Op.createTask cid content now, b =>
      handleModalSave (some { id := none, content := content, columnId := cid }) now b
  | Op.editTask tid cid content, b =>
      handleModalSave (some { id := some tid, content := content, columnId := cid }) 0 b
  | Op.deleteTask tid cid, b =>
      confirmDelete (some { taskId := tid, columnId := cid }) b
  | Op.moveTask r, b => onDragEnd r b

/-- Validity of an operation on a board: the preconditions §4.1 of the spec
attaches to each operation, translated to the source handlers' arguments.
For `createTask` the spec's fresh-id guarantee becomes the condition that
the generated id `task-<now>` is not yet a key; for `deleteTask` the
handler's extra `columnId` argument (absent from the spec's signature,
supplied by the rendering layer as the column the task is shown in) must
be the column actually holding the task; for `moveTask` a report must
either have no destination (spec §6: treated as "no move") or be
consistent with the current state. -/
def ValidOp : Op → BoardData → Prop
  | Op.createTask cid content now, b =>
      (b.columns cid).isSome ∧ jsTrim content ≠ "" ∧
        b.tasks ("task-" ++ toString now) = none
  | Op.editTask tid _cid content, b =>
      tid ≠ "" ∧ (b.tasks tid).isSome ∧ jsTrim content ≠ ""
  | Op.deleteTask tid cid, b =>
      ∃ col, b.columns cid = some col ∧ tid ∈ col.taskIds
  | Op.moveTask r, b =>
      r.destination = none ∨
      ∃ d, r.destination = some d ∧
        (∃ scol, b.columns r.source.droppableId = some scol ∧
          scol.taskIds[r.source.index]? = some r.draggableId) ∧
        (b.columns d.droppableId).isSome

/-- Boards reachable from the initial board by sequences of valid
operations. -/
inductive Reaches : BoardData → Prop where
  | init : Reaches initialBoard
  | step {b b' : BoardData} (op : Op) : Reaches b → ValidOp op b →
      applyOp op b = some b' → Reaches b'

/-! ### Splice lemmas -/

theorem spliceRemove_nil {α : Type} (i : Nat) :
    spliceRemove ([] : List α) i = [] := by
  simp [spliceRemove]

theorem spliceRemove_cons_zero {α : Type} (x : α) (xs : List α) :
    spliceRemove (x :: xs) 0 = xs := by
  simp [spliceRemove]

theorem spliceRemove_cons_succ {α : Type} (x : α) (xs : List α) (i : Nat) :
    spliceRemove (x :: xs) (i + 1) = x :: spliceRemove xs i := by
  simp [spliceRemove]

theorem spliceInsert_zero {α : Type} (l : List α) (a : α) :
    spliceInsert l 0 a = a :: l := by
  simp [spliceInsert]

theorem spliceInsert_nil {α : Type} (i : Nat) (a : α) :
    spliceInsert ([] : List α) i a = [a] := by
  simp [spliceInsert]

theorem spliceInsert_cons_succ {α : Type} (x : α) (xs : List α) (i : Nat) (a : α) :
    spliceInsert (x :: xs) (i + 1) a = x :: spliceInsert xs i a := by
  simp [spliceInsert]

theorem count_spliceRemove (l : List String) (i : Nat) (a : String)
    (h : l[i]? = some a) (k : String) :
    (spliceRemove l i).count k + (if a = k then 1 else 0) = l.count k := by
  induction l generalizing i with
  | nil => simp at h
  | cons x xs ih =>
    cases i with
    | zero =>
      simp only [List.getElem?_cons_zero, Option.some.injEq] at h
      subst h
      simp [spliceRemove_cons_zero, List.count_cons]
    | succ i =>
      simp only [List.getElem?_cons_succ] at h
      have := ih i h
      simp only [spliceRemove_cons_succ, List.count_cons]
      omega

theorem count_spliceInsert (l : List String) (i : Nat) (a k : String) :
    (spliceInsert l i a).count k = l.count k + (if a = k then 1 else 0) := by
  induction l generalizing i with
  | nil => simp [spliceInsert_nil, List.count_cons, List.count_nil]
  | cons x xs ih =>
    cases i with
    | zero => simp only [spliceInsert_zero, List.count_cons, beq_iff_eq]
    | succ i =>
      simp only [spliceInsert_cons_succ, List.count_cons, ih, beq_iff_eq]
      omega

theorem mem_of_mem_spliceRemove {l : List String} {i : Nat} {x : String}
    (h : x ∈ spliceRemove l i) : x ∈ l := by
  simp only [spliceRemove, List.mem_append] at h
  rcases h with h | h
  · exact List.mem_of_mem_take h
  · exact List.mem_of_mem_drop h

theorem mem_of_mem_spliceInsert {l : List String} {i : Nat} {a x : String}
    (h : x ∈ spliceInsert l i a) : x = a ∨ x ∈ l := by
  simp only [spliceInsert, List.mem_append, List.mem_cons] at h
  rcases h with h | h | h
  · exact Or.inr (List.mem_of_mem_take h)
  · exact Or.inl h
  · exact Or.inr (List.mem_of_mem_drop h)

/-! ### Sum bookkeeping over `columnOrder` -/

theorem le_sum_of_mem {l : List String} {c : String} (f : String → Nat)
    (hc : c ∈ l) : f c ≤ (l.map f).sum := by
  induction l with
  | nil => simp at hc
  | cons x xs ih =>
    rcases List.mem_cons.mp hc with h | h
    · subst h; simp
    · have := ih h
      simp only [List.map_cons, List.sum_cons]
      omega

theorem add_le_sum_of_mem {l : List String} {a b : String}
    (hnd : l.Nodup) (ha : a ∈ l) (hb : b ∈ l) (hab : a ≠ b)
    (f : String → Nat) : f a + f b ≤ (l.map f).sum := by
  induction l with
  | nil => simp at ha
  | cons x xs ih =>
    have hx : x ∉ xs := (List.nodup_cons.mp hnd).1
    have hnd' : xs.Nodup := (List.nodup_cons.mp hnd).2
    simp only [List.map_cons, List.sum_cons]
    rcases List.mem_cons.mp ha with rfl | ha'
    · have hb' : b ∈ xs := by
        rcases List.mem_cons.mp hb with rfl | hb'
        · exact absurd rfl hab
        · exact hb'
      have := le_sum_of_mem f hb'
      omega
    · rcases List.mem_cons.mp hb with rfl | hb'
      · have := le_sum_of_mem f ha'
        omega
      · have := ih hnd' ha' hb'
        omega

theorem sum_map_update {l : List String} (hnd : l.Nodup) {c : String}
    (hc : c ∈ l) (f g : String → Nat) (hfg : ∀ x ∈ l, x ≠ c → f x = g x) :
    (l.map g).sum + f c = (l.map f).sum + g c := by
  induction l with
  | nil => simp at hc
  | cons x xs ih =>
    have hx : x ∉ xs := (List.nodup_cons.mp hnd).1
    have hnd' : xs.Nodup := (List.nodup_cons.mp hnd).2
    simp only [List.map_cons, List.sum_cons]
    rcases List.mem_cons.mp hc with rfl | hc'
    · have heq : xs.map f = xs.map g := by
        apply List.map_congr_left
        intro y hy
        exact hfg y (List.mem_cons_of_mem _ hy) (fun h => hx (h ▸ hy))
      rw [heq]; omega
    · have hfx : f x = g x :=
        hfg x (List.mem_cons_self x xs) (fun h => hx (h ▸ hc'))
      have := ih hnd' hc' (fun y hy hyc => hfg y (List.mem_cons_of_mem _ hy) hyc)
      omega

/-! ### Record lemmas -/

theorem updateRecord_self {α : Type} (m : String → Option α) (k : String) (v : α) :
    updateRecord m k v k = some v := by
  simp [updateRecord]

theorem updateRecord_ne {α : Type} (m : String → Option α) {k c : String} (v : α)
    (h : c ≠ k) : updateRecord m k v c = m c := by
  simp [updateRecord, h]

theorem eraseRecord_self {α : Type} (m : String → Option α) (k : String) :
    eraseRecord m k k = none := by
  simp [eraseRecord]

theorem eraseRecord_ne {α : Type} (m : String → Option α) {k c : String}
    (h : c ≠ k) : eraseRecord m k c = m c := by
  simp [eraseRecord, h]

/-! ### `colTaskIds` / `refCount` lemmas -/

theorem colTaskIds_of_some {b : BoardData} {c : String} {col : Column}
    (h : b.columns c = some col) : colTaskIds b c = col.taskIds := by
  simp [colTaskIds, h]

theorem colTaskIds_congr {b b' : BoardData} {c : String}
    (h : b'.columns c = b.columns c) : colTaskIds b' c = colTaskIds b c := by
  simp [colTaskIds, h]

theorem count_colTaskIds_eq_zero {b : BoardData} {k : String}
    (h1 : Inv1 b) (hk : b.tasks k = none) (c : String) :
    (colTaskIds b c).count k = 0 := by
  cases hcol : b.columns c with
  | none => simp [colTaskIds, hcol]
  | some col =>
    rw [colTaskIds_of_some hcol]
    apply List.count_eq_zero.mpr
    intro hmem
    have := h1 c col hcol k hmem
    rw [hk] at this
    simp at this

theorem refCount_eq_zero {b : BoardData} {k : String}
    (h1 : Inv1 b) (hk : b.tasks k = none) : refCount b k = 0 := by
  apply List.sum_eq_zero_iff.mpr
  intro x hx
  obtain ⟨c, _, rfl⟩ := List.mem_map.mp hx
  exact count_colTaskIds_eq_zero h1 hk c

theorem count_le_refCount {b : BoardData} {cid : String} {col : Column}
    (h3 : Inv3 b) (hcol : b.columns cid = some col) (k : String) :
    col.taskIds.count k ≤ refCount b k := by
  have hmem : cid ∈ b.columnOrder := (h3.2 cid).mp (by rw [hcol]; rfl)
  have h := le_sum_of_mem (fun c => (colTaskIds b c).count k) hmem
  simp only [colTaskIds_of_some hcol] at h
  exact h

/-- Updating one column changes the total reference count of every id by
the difference of that column's counts. -/
theorem refCount_update {b b' : BoardData} {cid : String} {col newCol : Column}
    (horder : b'.columnOrder = b.columnOrder)
    (hcols : b'.columns = updateRecord b.columns cid newCol)
    (h3 : Inv3 b) (hcol : b.columns cid = some col) (k : String) :
    refCount b' k + col.taskIds.count k = refCount b k + newCol.taskIds.count k := by
  have hmem : cid ∈ b.columnOrder := (h3.2 cid).mp (by rw [hcol]; rfl)
  have h := sum_map_update h3.1 hmem
    (fun c => (colTaskIds b' c).count k) (fun c => (colTaskIds b c).count k)
    (fun x _ hx => by
      have hcx : b'.columns x = b.columns x := by
        rw [hcols, updateRecord_ne _ _ hx]
      show (colTaskIds b' x).count k = (colTaskIds b x).count k
      rw [colTaskIds_congr hcx])
  have hb' : colTaskIds b' cid = newCol.taskIds := by
    show ((b'.columns cid).map Column.taskIds).getD [] = newCol.taskIds
    rw [hcols, updateRecord_self]
    rfl
  have hb : colTaskIds b cid = col.taskIds := colTaskIds_of_some hcol
  unfold refCount
  rw [horder]
  simp only [hb, hb'] at h
  omega

/-! ### Well-formedness helpers for single-column updates -/

theorem inv3_of_update {b b' : BoardData} {cid : String} {newCol : Column}
    (horder : b'.columnOrder = b.columnOrder)
    (hcols : b'.columns = updateRecord b.columns cid newCol)
    (h3 : Inv3 b) (hsome : (b.columns cid).isSome) : Inv3 b' := by
  constructor
  · rw [horder]; exact h3.1
  · intro c
    rw [horder, hcols]
    by_cases hc : c = cid
    · subst hc
      rw [updateRecord_self]
      simpa using (h3.2 c).mp hsome
    · rw [updateRecord_ne _ _ hc]
      exact h3.2 c

theorem keyCons_of_update {b b' : BoardData} {cid : String} {newCol : Column}
    (hcols : b'.columns = updateRecord b.columns cid newCol)
    (hk : KeyConsistent b) (hid : newCol.id = cid) : KeyConsistent b' := by
  intro c col hcol
  rw [hcols] at hcol
  by_cases hc : c = cid
  · subst hc
    rw [updateRecord_self] at hcol
    cases hcol
    exact hid
  · rw [updateRecord_ne _ _ hc] at hcol
    exact hk c col hcol

/-! ### Preservation of well-formedness, operation by operation -/

theorem create_preserves {b : BoardData} {cid content : String} {now : Nat}
    (hg : GoodBoard b) (hv : ValidOp (Op.createTask cid content now) b) :
    ∃ b', applyOp (Op.createTask cid content now) b = some b' ∧ GoodBoard b' := by
  obtain ⟨hcsome, htrim, hfresh⟩ := hv
  obtain ⟨col, hcol⟩ := Option.isSome_iff_exists.mp hcsome
  set nid := "task-" ++ toString now with hnid
  set newCol : Column := { col with taskIds := nid :: col.taskIds } with hnewCol
  set b' : BoardData := { b with
      tasks := updateRecord b.tasks nid { id := some nid, content := content }
    , columns := updateRecord b.columns cid newCol } with hb'
  refine ⟨b', ?_, ?_, ?_, ?_, ?_, ?_⟩
  · simp [applyOp, handleModalSave, truthy, htrim, hcol, hb', hnewCol, hnid]
  · -- Inv1
    intro c col' hcol' k hk
    have htasks : b'.tasks = updateRecord b.tasks nid
        { id := some nid, content := content } := rfl
    have hsome : ∀ j, (b.tasks j).isSome → (b'.tasks j).isSome := by
      intro j hj
      rw [htasks]
      by_cases hjn : j = nid
      · subst hjn; rw [updateRecord_self]; rfl
      · rw [updateRecord_ne _ _ hjn]; exact hj
    have hcols' : b'.columns = updateRecord b.columns cid newCol := rfl
    rw [hcols'] at hcol'
    by_cases hc : c = cid
    · subst hc
      rw [updateRecord_self] at hcol'
      cases hcol'
      rcases List.mem_cons.mp hk with rfl | hk'
      · rw [htasks, updateRecord_self]; rfl
      · exact hsome k (hg.inv1 _ col hcol k hk')
    · rw [updateRecord_ne _ _ hc] at hcol'
      exact hsome k (hg.inv1 c col' hcol' k hk)
  · -- Inv2
    intro k hk
    have hrc := @refCount_update b b' cid col newCol rfl rfl hg.inv3 hcol k
    have hcount : newCol.taskIds.count k
        = col.taskIds.count k + (if nid = k then 1 else 0) := by
      simp [hnewCol, List.count_cons, beq_iff_eq]
    by_cases hknid : k = nid
    · subst hknid
      have h0 : refCount b nid = 0 := refCount_eq_zero hg.inv1 hfresh
      have hle := count_le_refCount hg.inv3 hcol nid
      rw [if_pos rfl] at hcount
      omega
    · have hks : (b.tasks k).isSome := by
        have : b'.tasks k = b.tasks k := updateRecord_ne _ _ hknid
        rwa [this] at hk
      have h1 : refCount b k = 1 := hg.inv2 k hks
      rw [if_neg (fun h => hknid h.symm)] at hcount
      omega
  · -- Inv3
    exact @inv3_of_update b b' cid newCol rfl rfl hg.inv3 hcsome
  · -- KeyConsistent
    exact @keyCons_of_update b b' cid newCol rfl hg.keyCons (hg.keyCons cid col hcol)
  · -- ContentOk
    intro k t ht
    have htasks : b'.tasks = updateRecord b.tasks nid
        { id := some nid, content := content } := rfl
    rw [htasks] at ht
    by_cases hkn : k = nid
    · subst hkn
      rw [updateRecord_self] at ht
      cases ht
      exact htrim
    · rw [updateRecord_ne _ _ hkn] at ht
      exact hg.contentOk k t ht

theorem edit_preserves {b : BoardData} {tid cid content : String}
    (hg : GoodBoard b) (hv : ValidOp (Op.editTask tid cid content) b) :
    ∃ b', applyOp (Op.editTask tid cid content) b = some b' ∧ GoodBoard b' := by
  obtain ⟨hne, hsome, htrim⟩ := hv
  set b' : BoardData := { b with
      tasks := updateRecord b.tasks tid
        { id := (b.tasks tid).bind Task.id, content := content } } with hb'
  have htruthy : truthy (some tid) = true := by
    simp [truthy, hne]
  refine ⟨b', ?_, ?_, ?_, ?_, ?_, ?_⟩
  · simp [applyOp, handleModalSave, htruthy, htrim, hb']
  · -- Inv1
    intro c col hcol k hk
    have : (b.tasks k).isSome := hg.inv1 c col hcol k hk
    by_cases hkt : k = tid
    · subst hkt
      show (updateRecord b.tasks k _ k).isSome
      rw [updateRecord_self]; rfl
    · show (updateRecord b.tasks tid _ k).isSome
      rw [updateRecord_ne _ _ hkt]; exact this
  · -- Inv2
    intro k hk
    have hrc : refCount b' k = refCount b k := rfl
    rw [hrc]
    by_cases hkt : k = tid
    · subst hkt; exact hg.inv2 k hsome
    · apply hg.inv2 k
      have : b'.tasks k = b.tasks k := updateRecord_ne _ _ hkt
      rwa [this] at hk
  · -- Inv3
    exact hg.inv3
  · -- KeyConsistent
    exact hg.keyCons
  · -- ContentOk
    intro k t ht
    by_cases hkt : k = tid
    · subst hkt
      have : b'.tasks k = some { id := (b.tasks k).bind Task.id, content := content } :=
        updateRecord_self _ _ _
      rw [this] at ht
      cases ht
      exact htrim
    · have : b'.tasks k = b.tasks k := updateRecord_ne _ _ hkt
      rw [this] at ht
      exact hg.contentOk k t ht

theorem delete_preserves {b : BoardData} {tid cid : String}
    (hg : GoodBoard b) (hv : ValidOp (Op.deleteTask tid cid) b) :
    ∃ b', applyOp (Op.deleteTask tid cid) b = some b' ∧ GoodBoard b' := by
  obtain ⟨col, hcol, hmem⟩ := hv
  have htk : (b.tasks tid).isSome := hg.inv1 cid col hcol tid hmem
  have hrc1 : refCount b tid = 1 := hg.inv2 tid htk
  have hcin : cid ∈ b.columnOrder := (hg.inv3.2 cid).mp (by rw [hcol]; rfl)
  have hcnt1 : col.taskIds.count tid = 1 := by
    have hge : 0 < col.taskIds.count tid := List.count_pos_iff.mpr hmem
    have hle := count_le_refCount hg.inv3 hcol tid
    omega
  have hothers : ∀ c' ∈ b.columnOrder, c' ≠ cid →
      (colTaskIds b c').count tid = 0 := by
    intro c' hc' hne
    have := add_le_sum_of_mem hg.inv3.1 hcin hc' (fun h => hne h.symm)
      (fun c => (colTaskIds b c).count tid)
    simp only [colTaskIds_of_some hcol] at this
    have : col.taskIds.count tid + (colTaskIds b c').count tid ≤ refCount b tid :=
      this
    omega
  set newCol : Column :=
    { col with taskIds := col.taskIds.filter (fun i => i != tid) } with hnewCol
  set b' : BoardData := { b with
      tasks := eraseRecord b.tasks tid
    , columns := updateRecord b.columns cid newCol } with hb'
  refine ⟨b', ?_, ?_, ?_, ?_, ?_, ?_⟩
  · simp [applyOp, confirmDelete, hcol, hb', hnewCol]
  · -- Inv1
    intro c col' hcol' k hk
    have hcols' : b'.columns = updateRecord b.columns cid newCol := rfl
    rw [hcols'] at hcol'
    have hkey : k ≠ tid → (b.tasks k).isSome → (b'.tasks k).isSome := by
      intro hkt hks
      have : b'.tasks k = b.tasks k := eraseRecord_ne _ hkt
      rwa [this]
    by_cases hc : c = cid
    · subst hc
      rw [updateRecord_self] at hcol'
      cases hcol'
      have hk' := List.mem_filter.mp hk
      have hkt : k ≠ tid := by simpa using hk'.2
      exact hkey hkt (hg.inv1 _ col hcol k hk'.1)
    · rw [updateRecord_ne _ _ hc] at hcol'
      have hcin' : c ∈ b.columnOrder := (hg.inv3.2 c).mp (by rw [hcol']; rfl)
      have hz := hothers c hcin' hc
      rw [colTaskIds_of_some hcol'] at hz
      have hkt : k ≠ tid := by
        intro h
        subst h
        exact absurd hk (List.count_eq_zero.mp hz)
      exact hkey hkt (hg.inv1 c col' hcol' k hk)
  · -- Inv2
    intro k hk
    have hkt : k ≠ tid := by
      intro h
      subst h
      have : b'.tasks k = none := eraseRecord_self _ _
      rw [this] at hk
      simp at hk
    have hks : (b.tasks k).isSome := by
      have : b'.tasks k = b.tasks k := eraseRecord_ne _ hkt
      rwa [this] at hk
    have hrc := @refCount_update b b' cid col newCol rfl rfl hg.inv3 hcol k
    have hcnt : newCol.taskIds.count k = col.taskIds.count k := by
      apply List.count_filter
      simp [hkt]
    have := hg.inv2 k hks
    omega
  · -- Inv3
    exact @inv3_of_update b b' cid newCol rfl rfl hg.inv3 (by rw [hcol]; rfl)
  · -- KeyConsistent
    exact @keyCons_of_update b b' cid newCol rfl hg.keyCons (hg.keyCons cid col hcol)
  · -- ContentOk
    intro k t ht
    by_cases hkt : k = tid
    · subst hkt
      have : b'.tasks k = none := eraseRecord_self _ _
      rw [this] at ht
      cases ht
    · have : b'.tasks k = b.tasks k := eraseRecord_ne _ hkt
      rw [this] at ht
      exact hg.contentOk k t ht

theorem move_preserves {b : BoardData} {r : DropResult}
    (hg : GoodBoard b) (hv : ValidOp (Op.moveTask r) b) :
    ∃ b', applyOp (Op.moveTask r) b = some b' ∧ GoodBoard b' := by
  rcases hv with hnone | ⟨d, hdest, ⟨scol, hscol, hidx⟩, hfs⟩
  · exact ⟨b, by simp [applyOp, onDragEnd, hnone], hg⟩
  obtain ⟨fcol, hfcol⟩ := Option.isSome_iff_exists.mp hfs
  have htid : r.draggableId ∈ scol.taskIds := List.getElem?_mem hidx
  have htids : (b.tasks r.draggableId).isSome := hg.inv1 _ scol hscol _ htid
  have hsid : scol.id = r.source.droppableId := hg.keyCons _ _ hscol
  have hfid : fcol.id = d.droppableId := hg.keyCons _ _ hfcol
  by_cases hguard : d.droppableId = r.source.droppableId ∧ d.index = r.source.index
  · refine ⟨b, ?_, hg⟩
    simp only [applyOp, onDragEnd, hdest]
    rw [if_pos hguard]
  by_cases hsame : r.source.droppableId = d.droppableId
  · -- moving within the same column
    set l' := spliceInsert (spliceRemove scol.taskIds r.source.index) d.index
      r.draggableId with hl'
    set newColumn : Column := { scol with taskIds := l' } with hnewc
    set b' : BoardData :=
      { b with columns := updateRecord b.columns newColumn.id newColumn } with hb'
    have hcolS : b.columns newColumn.id = some scol := by
      show b.columns scol.id = some scol
      rw [hsid]; exact hscol
    refine ⟨b', ?_, ?_, ?_, ?_, ?_, ?_⟩
    · simp only [applyOp, onDragEnd, hdest]
      rw [if_neg hguard]
      simp only [hscol, hfcol]
      rw [if_pos hsame]
    · -- Inv1
      intro c col' hcol' k hk
      have hcols' : b'.columns = updateRecord b.columns newColumn.id newColumn := rfl
      rw [hcols'] at hcol'
      by_cases hc : c = newColumn.id
      · subst hc
        rw [updateRecord_self] at hcol'
        cases hcol'
        rcases mem_of_mem_spliceInsert hk with rfl | hk'
        · exact htids
        · exact hg.inv1 _ scol hscol k (mem_of_mem_spliceRemove hk')
      · rw [updateRecord_ne _ _ hc] at hcol'
        exact hg.inv1 c col' hcol' k hk
    · -- Inv2
      intro k hk
      have hk' : (b.tasks k).isSome := hk
      have h1 : refCount b k = 1 := hg.inv2 k hk'
      have hrc := @refCount_update b b' newColumn.id scol newColumn rfl rfl hg.inv3 hcolS k
      have hA := count_spliceRemove scol.taskIds r.source.index r.draggableId hidx k
      have hBC : newColumn.taskIds.count k
          = (spliceRemove scol.taskIds r.source.index).count k
            + (if r.draggableId = k then 1 else 0) :=
        count_spliceInsert (spliceRemove scol.taskIds r.source.index) d.index
          r.draggableId k
      omega
    · -- Inv3
      exact @inv3_of_update b b' newColumn.id newColumn rfl rfl hg.inv3 (by rw [hcolS]; rfl)
    · -- KeyConsistent
      exact @keyCons_of_update b b' newColumn.id newColumn rfl hg.keyCons rfl
    · -- ContentOk
      intro k t ht
      exact hg.contentOk k t ht
  · -- moving to another column
    have hdne : d.droppableId ≠ r.source.droppableId := fun h => hsame h.symm
    set newStart : Column :=
      { scol with taskIds := spliceRemove scol.taskIds r.source.index } with hns
    set newFinish : Column :=
      { fcol with taskIds := spliceInsert fcol.taskIds d.index r.draggableId } with hnf
    set bMid : BoardData :=
      { b with columns := updateRecord b.columns newStart.id newStart } with hbmid
    set b' : BoardData :=
      { b with columns :=
          (updateRecord (updateRecord b.columns newStart.id newStart)
            newFinish.id newFinish) } with hb'
    have hcolS : b.columns newStart.id = some scol := by
      show b.columns scol.id = some scol
      rw [hsid]; exact hscol
    have h3Mid : Inv3 bMid :=
      @inv3_of_update b bMid newStart.id newStart rfl rfl hg.inv3 (by rw [hcolS]; rfl)
    have hfne : newFinish.id ≠ newStart.id := by
      show fcol.id ≠ scol.id
      rw [hfid, hsid]; exact hdne
    have hcolMid : bMid.columns newFinish.id = some fcol := by
      show updateRecord b.columns newStart.id newStart newFinish.id = some fcol
      rw [updateRecord_ne _ _ hfne]
      show b.columns fcol.id = some fcol
      rw [hfid]; exact hfcol
    refine ⟨b', ?_, ?_, ?_, ?_, ?_, ?_⟩
    · simp only [applyOp, onDragEnd, hdest]
      rw [if_neg hguard]
      simp only [hscol, hfcol]
      rw [if_neg hsame]
    · -- Inv1
      intro c col' hcol' k hk
      have hcols' : b'.columns
          = updateRecord (updateRecord b.columns newStart.id newStart)
            newFinish.id newFinish := rfl
      rw [hcols'] at hcol'
      by_cases hcf : c = newFinish.id
      · subst hcf
        rw [updateRecord_self] at hcol'
        cases hcol'
        rcases mem_of_mem_spliceInsert hk with rfl | hk'
        · exact htids
        · exact hg.inv1 _ fcol hfcol k hk'
      · rw [updateRecord_ne _ _ hcf] at hcol'
        by_cases hcs : c = newStart.id
        · subst hcs
          rw [updateRecord_self] at hcol'
          cases hcol'
          exact hg.inv1 _ scol hscol k (mem_of_mem_spliceRemove hk)
        · rw [updateRecord_ne _ _ hcs] at hcol'
          exact hg.inv1 c col' hcol' k hk
    · -- Inv2
      intro k hk
      have hk' : (b.tasks k).isSome := hk
      have h1 : refCount b k = 1 := hg.inv2 k hk'
      have hrc1 := @refCount_update b bMid newStart.id scol newStart rfl rfl hg.inv3 hcolS k
      have hrc2 := @refCount_update bMid b' newFinish.id fcol newFinish rfl rfl h3Mid hcolMid k
      have hA := count_spliceRemove scol.taskIds r.source.index r.draggableId hidx k
      have hAC : newStart.taskIds.count k
          = (spliceRemove scol.taskIds r.source.index).count k := rfl
      have hBC : newFinish.taskIds.count k
          = fcol.taskIds.count k + (if r.draggableId = k then 1 else 0) :=
        count_spliceInsert fcol.taskIds d.index r.draggableId k
      omega
    · -- Inv3
      exact @inv3_of_update bMid b' newFinish.id newFinish rfl rfl h3Mid (by rw [hcolMid]; rfl)
    · -- KeyConsistent
      exact @keyCons_of_update bMid b' newFinish.id newFinish rfl
        (@keyCons_of_update b bMid newStart.id newStart rfl hg.keyCons rfl) rfl
    · -- ContentOk
      intro k t ht
      exact hg.contentOk k t ht

theorem initial_good : GoodBoard initialBoard := by
  constructor
  · -- Inv1
    intro c col hcol k hk
    simp only [initialBoard, DEFAULT_COLUMNS, List.foldl, updateRecord] at hcol
    split at hcol <;> try split at hcol
    all_goals first
      | (cases hcol; simp at hk)
      | (try split at hcol
         all_goals first
           | (cases hcol; simp at hk)
           | exact absurd hcol (by simp))
  · -- Inv2
    intro k hk
    simp [initialBoard] at hk
  · -- Inv3
    constructor
    · decide
    · intro c
      simp only [initialBoard, DEFAULT_COLUMNS, List.foldl, updateRecord,
        List.map]
      by_cases h1 : c = "done" <;> by_cases h2 : c = "inprogress" <;>
        by_cases h3 : c = "todo" <;> simp [h1, h2, h3]
  · -- KeyConsistent
    intro c col hcol
    simp only [initialBoard, DEFAULT_COLUMNS, List.foldl, updateRecord] at hcol
    split at hcol <;> try split at hcol
    all_goals first
      | (cases hcol; simp_all)
      | (try split at hcol
         all_goals first
           | (cases hcol; simp_all)
           | exact absurd hcol (by simp))
  · -- ContentOk
    intro k t ht
    simp [initialBoard] at ht

theorem applyOp_preserves {op : Op} {b : BoardData} (hg : GoodBoard b)
    (hv : ValidOp op b) : ∃ b', applyOp op b = some b' ∧ GoodBoard b' := by
  cases op with
  | createTask cid content now => exact create_preserves hg hv
  | editTask tid cid content => exact edit_preserves hg hv
  | deleteTask tid cid => exact delete_preserves hg hv
  | moveTask r => exact move_preserves hg hv

/-- Every board reachable from the initial board by valid operations is
well formed. -/
theorem reaches_good {b : BoardData} (h : Reaches b) : GoodBoard b := by
  induction h with
  | init => exact initial_good
  | step op _ hv happ ih =>
    obtain ⟨b'', heq, hgood⟩ := applyOp_preserves ih hv
    rw [happ] at heq
    cases heq
    exact hgood

/-! ### Further list helpers -/

theorem spliceInsert_spliceRemove_self {l : List String} {i : Nat} {a : String}
    (h : l[i]? = some a) : spliceInsert (spliceRemove l i) i a = l := by
  induction l generalizing i with
  | nil => simp at h
  | cons x xs ih =>
    cases i with
    | zero =>
      simp only [List.getElem?_cons_zero, Option.some.injEq] at h
      subst h
      rw [spliceRemove_cons_zero, spliceInsert_zero]
    | succ i =>
      simp only [List.getElem?_cons_succ] at h
      rw [spliceRemove_cons_succ, spliceInsert_cons_succ, ih h]

theorem length_filter_ne (l : List String) (t : String) :
    (l.filter (fun i => i != t)).length + l.count t = l.length := by
  induction l with
  | nil => simp
  | cons x xs ih =>
    by_cases hx : x = t
    · subst hx
      simp only [List.filter_cons, bne_self_eq_false, Bool.false_eq_true,
        if_false, List.count_cons, beq_self_eq_true, if_true, List.length_cons]
      omega
    · have h1 : (x != t) = true := by simp [hx]
      have h2 : (x == t) = false := by simp [hx]
      simp only [List.filter_cons, List.count_cons, List.length_cons, h1, h2,
        if_true, Bool.false_eq_true, if_false]
      omega

/-! ### Concrete example boards -/

/-- A column named `todo` holding tasks `a`, `b`, `c` in order. -/
def todoColumnABC : Column :=
  { id := "todo", title := "To Do", color := "", accent := "", taskIds := ["a", "b", "c"] }

/-- A board with a single populated column `todo = [a, b, c]`. -/
def exampleBoardABC : BoardData :=
  { tasks := fun s =>
      if s = "a" then some { id := some "a", content := "A" }
      else if s = "b" then some { id := some "b", content := "B" }
      else if s = "c" then some { id := some "c", content := "C" }
      else none
  , columns := fun s => if s = "todo" then some todoColumnABC else none
  , columnOrder := ["todo"] }

/-- Columns for the cross-column example board. -/
def todoColumnCross : Column :=
  { id := "todo", title := "To Do", color := "", accent := "", taskIds := ["a", "b"] }

def doneColumnCross : Column :=
  { id := "done", title := "Done", color := "", accent := "", taskIds := ["c"] }

/-- The spec's cross-column example: `todo = [a, b]`, `done = [c]`. -/
def exampleBoardCross : BoardData :=
  { tasks := fun s =>
      if s = "a" then some { id := some "a", content := "A" }
      else if s = "b" then some { id := some "b", content := "B" }
      else if s = "c" then some { id := some "c", content := "C" }
      else none
  , columns := fun s =>
      if s = "todo" then some todoColumnCross
      else if s = "done" then some doneColumnCross
      else none
  , columnOrder := ["todo", "done"] }

/-- A board whose task `x` lives in `done` while `todo` is empty: feeding
the delete handler the wrong column id leaves `x` dangling in `done`. -/
def exampleBoardDangling : BoardData :=
  { tasks := fun s => if s = "x" then some { id := some "x", content := "X" } else none
  , columns := fun s =>
      if s = "todo" then some ⟨"todo", "To Do", "", "", []⟩
      else if s = "done" then some ⟨"done", "Done", "", "", ["x"]⟩
      else none
  , columnOrder := ["todo", "done"] }

/-- The board after one valid `createTask` on the initial board (used as a
concrete reachable board by witnesses). -/
def reachedExample : BoardData :=
  (applyOp (Op.createTask "todo" "x" 0) initialBoard).getD initialBoard

/-! ### Claim theorems -/

/-- C1: for every sequence of valid operations (createTask, editTask,
deleteTask, moveTask) starting from the initial board, after each
operation the three data-model invariants hold: every id in every
column's taskIds is a key of tasks, every key of tasks appears in exactly
one column's taskIds with no duplicates, and columnOrder is a
duplicate-free permutation of the columns' keys. Validity of an operation
is the spec's §4.1 precondition translated to the source handler's
arguments (see `ValidOp`). -/
theorem c1_invariant_preservation {b : BoardData} (h : Reaches b) :
    Inv1 b ∧ Inv2 b ∧ Inv3 b :=
  ⟨(reaches_good h).inv1, (reaches_good h).inv2, (reaches_good h).inv3⟩

theorem c1_invariant_preservation_witness :
    Inv1 reachedExample ∧ Inv2 reachedExample ∧ Inv3 reachedExample :=
  c1_invariant_preservation
    (Reaches.step (Op.createTask "todo" "x" 0) Reaches.init
      ⟨by decide, by decide, rfl⟩ rfl)

/-- Evaluation of `onDragEnd` on a same-column report that passes the
no-op guard. -/
theorem onDragEnd_same {b : BoardData} {colId tid : String} {si di : Nat}
    {col : Column} (hdi : di ≠ si) (hcol : b.columns colId = some col) :
    onDragEnd ⟨tid, ⟨colId, si⟩, some ⟨colId, di⟩⟩ b
      = some { b with columns := (updateRecord b.columns col.id
          { col with taskIds :=
            spliceInsert (spliceRemove col.taskIds si) di tid }) } := by
  simp only [onDragEnd]
  rw [if_neg (by simp [hdi])]
  simp only [hcol]
  simp

/-- Evaluation of `onDragEnd` on a cross-column report. -/
theorem onDragEnd_cross {b : BoardData} {srcId dstId tid : String} {si di : Nat}
    {scol dcol : Column} (hne : srcId ≠ dstId)
    (hsrc : b.columns srcId = some scol) (hdst : b.columns dstId = some dcol) :
    onDragEnd ⟨tid, ⟨srcId, si⟩, some ⟨dstId, di⟩⟩ b
      = some { b with columns :=
          (updateRecord (updateRecord b.columns scol.id
              { scol with taskIds := spliceRemove scol.taskIds si })
            dcol.id { dcol with taskIds := spliceInsert dcol.taskIds di tid }) } := by
  simp only [onDragEnd]
  rw [if_neg (by rintro ⟨h, -⟩; exact hne h.symm)]
  simp only [hsrc, hdst]
  rw [if_neg hne]

/-- C2: for every board and same-column move report whose source index
addresses the moved task, `onDragEnd` removes the id at `sourceIndex` and
inserts it at `destIndex` in the shortened sequence (standard list-splice
semantics, destination index interpreted after removal). -/
theorem c2_same_column_splice {b : BoardData} {colId tid : String}
    {si di : Nat} {col : Column}
    (hcol : b.columns colId = some col) (hid : col.id = colId)
    (hidx : col.taskIds[si]? = some tid) :
    ∃ b', onDragEnd ⟨tid, ⟨colId, si⟩, some ⟨colId, di⟩⟩ b = some b' ∧
      ∃ col', b'.columns colId = some col' ∧
        col'.taskIds =
          (col.taskIds.take si ++ col.taskIds.drop (si + 1)).take di
            ++ tid :: (col.taskIds.take si ++ col.taskIds.drop (si + 1)).drop di := by
  by_cases hguard : di = si
  · subst hguard
    refine ⟨b, ?_, col, hcol, ?_⟩
    · simp [onDragEnd]
    · show col.taskIds = spliceInsert (spliceRemove col.taskIds di) di tid
      rw [spliceInsert_spliceRemove_self hidx]
  · refine ⟨_, onDragEnd_same hguard hcol,
      { col with taskIds := spliceInsert (spliceRemove col.taskIds si) di tid },
      ?_, rfl⟩
    show updateRecord b.columns col.id
        { col with taskIds := spliceInsert (spliceRemove col.taskIds si) di tid }
        colId
      = some { col with taskIds := spliceInsert (spliceRemove col.taskIds si) di tid }
    rw [hid, updateRecord_self]

theorem c2_same_column_splice_witness :
    exampleBoardABC.columns "todo" = some todoColumnABC ∧
    todoColumnABC.taskIds[1]? = some "b" ∧
    ∃ b', onDragEnd ⟨"b", ⟨"todo", 1⟩, some ⟨"todo", 0⟩⟩ exampleBoardABC = some b' ∧
      ∃ col', b'.columns "todo" = some col' ∧ col'.taskIds = ["b", "a", "c"] := by
  obtain ⟨b', h1, col', h2, h3⟩ :=
    @c2_same_column_splice exampleBoardABC "todo" "b" 1 0 todoColumnABC rfl rfl rfl
  exact ⟨rfl, rfl, b', h1, col', h2, by rw [h3]; rfl⟩

/-- C3: for every board and cross-column move report with valid indices,
`onDragEnd` removes the id at `sourceIndex` from the source column,
inserts it at `destIndex` against the destination's original sequence,
and leaves the global `tasks` map unchanged. -/
theorem c3_cross_column_splice {b : BoardData} {srcId dstId tid : String}
    {si di : Nat} {scol dcol : Column}
    (hne : srcId ≠ dstId)
    (hsrc : b.columns srcId = some scol) (hsrcId : scol.id = srcId)
    (hdst : b.columns dstId = some dcol) (hdstId : dcol.id = dstId)
    (_hsi : si < scol.taskIds.length) :
    ∃ b', onDragEnd ⟨tid, ⟨srcId, si⟩, some ⟨dstId, di⟩⟩ b = some b' ∧
      (∃ scol', b'.columns srcId = some scol' ∧
        scol'.taskIds = scol.taskIds.take si ++ scol.taskIds.drop (si + 1)) ∧
      (∃ dcol', b'.columns dstId = some dcol' ∧
        dcol'.taskIds = dcol.taskIds.take di ++ tid :: dcol.taskIds.drop di) ∧
      b'.tasks = b.tasks := by
  refine ⟨_, onDragEnd_cross hne hsrc hdst,
    ⟨{ scol with taskIds := spliceRemove scol.taskIds si }, ?_, rfl⟩,
    ⟨{ dcol with taskIds := spliceInsert dcol.taskIds di tid }, ?_, rfl⟩, rfl⟩
  · show updateRecord (updateRecord b.columns scol.id
        { scol with taskIds := spliceRemove scol.taskIds si }) dcol.id
        { dcol with taskIds := spliceInsert dcol.taskIds di tid } srcId
      = some { scol with taskIds := spliceRemove scol.taskIds si }
    have hsd : srcId ≠ dcol.id := by rw [hdstId]; exact hne
    rw [updateRecord_ne _ _ hsd, hsrcId, updateRecord_self]
  · show updateRecord (updateRecord b.columns scol.id
        { scol with taskIds := spliceRemove scol.taskIds si }) dcol.id
        { dcol with taskIds := spliceInsert dcol.taskIds di tid } dstId
      = some { dcol with taskIds := spliceInsert dcol.taskIds di tid }
    rw [hdstId, updateRecord_self]

theorem c3_cross_column_splice_witness :
    ("todo" : String) ≠ "done" ∧
    exampleBoardCross.columns "todo" = some todoColumnCross ∧
    exampleBoardCross.columns "done" = some doneColumnCross ∧
    0 < todoColumnCross.taskIds.length ∧
    ∃ b', onDragEnd ⟨"a", ⟨"todo", 0⟩, some ⟨"done", 1⟩⟩ exampleBoardCross = some b' ∧
      (∃ scol', b'.columns "todo" = some scol' ∧ scol'.taskIds = ["b"]) ∧
      (∃ dcol', b'.columns "done" = some dcol' ∧ dcol'.taskIds = ["c", "a"]) ∧
      b'.tasks = exampleBoardCross.tasks := by
  obtain ⟨b', h1, ⟨scol', h2, h3⟩, ⟨dcol', h4, h5⟩, h6⟩ :=
    @c3_cross_column_splice exampleBoardCross "todo" "done" "a" 0 1
      todoColumnCross doneColumnCross (by decide) rfl rfl rfl rfl (by decide)
  exact ⟨by decide, rfl, rfl, by decide, b', h1,
    ⟨scol', h2, by rw [h3]; rfl⟩, ⟨dcol', h4, by rw [h5]; rfl⟩, h6⟩

/-- Evaluation of the create branch of `handleModalSave`. -/
theorem handleModalSave_create {b : BoardData} {cid content : String} {now : Nat}
    {col : Column} (hcol : b.columns cid = some col) (htrim : jsTrim content ≠ "") :
    handleModalSave (some ⟨none, content, cid⟩) now b
      = some { b with
          tasks := (updateRecord b.tasks ("task-" ++ toString now)
            ⟨some ("task-" ++ toString now), content⟩)
        , columns := (updateRecord b.columns cid
            { col with taskIds := ("task-" ++ toString now) :: col.taskIds }) } := by
  simp [handleModalSave, truthy, htrim, hcol]

/-- C5: for every board, existing column id and content non-empty after
trimming, the create branch generates the id `task-<now>`, inserts
`{id, content}` into `tasks` (content stored verbatim), and prepends the
id to the target column's `taskIds`, so `taskIds[0]` is the new id and
`tasks[newId].content` is the given content. -/
theorem c5_create_inserts_and_prepends {b : BoardData} {cid content : String}
    {now : Nat} {col : Column}
    (hcol : b.columns cid = some col) (htrim : jsTrim content ≠ "") :
    ∃ b', handleModalSave (some ⟨none, content, cid⟩) now b = some b' ∧
      ∃ col', b'.columns cid = some col' ∧
        col'.taskIds = ("task-" ++ toString now) :: col.taskIds ∧
        col'.taskIds.head? = some ("task-" ++ toString now) ∧
        b'.tasks ("task-" ++ toString now)
          = some ⟨some ("task-" ++ toString now), content⟩ := by
  refine ⟨_, handleModalSave_create hcol htrim,
    { col with taskIds := ("task-" ++ toString now) :: col.taskIds },
    ?_, rfl, rfl, ?_⟩
  · show updateRecord b.columns cid
        { col with taskIds := ("task-" ++ toString now) :: col.taskIds } cid
      = some { col with taskIds := ("task-" ++ toString now) :: col.taskIds }
    rw [updateRecord_self]
  · show updateRecord b.tasks ("task-" ++ toString now)
        ⟨some ("task-" ++ toString now), content⟩ ("task-" ++ toString now)
      = some ⟨some ("task-" ++ toString now), content⟩
    rw [updateRecord_self]

theorem c5_create_inserts_and_prepends_witness :
    exampleBoardABC.columns "todo" = some todoColumnABC ∧
    jsTrim "x" ≠ "" ∧
    ∃ b', handleModalSave (some ⟨none, "x", "todo"⟩) 7 exampleBoardABC = some b' ∧
      ∃ col', b'.columns "todo" = some col' ∧
        col'.taskIds = ["task-7", "a", "b", "c"] ∧
        col'.taskIds.head? = some "task-7" ∧
        b'.tasks "task-7" = some ⟨some "task-7", "x"⟩ := by
  obtain ⟨b', h1, col', h2, h3, h4, h5⟩ :=
    @c5_create_inserts_and_prepends exampleBoardABC "todo" "x" 7 todoColumnABC
      rfl (by decide)
  have e : ("task-" ++ toString 7 : String) = "task-7" := by decide
  rw [e] at h3 h4 h5
  exact ⟨rfl, by decide, b', h1, col', h2, by rw [h3]; rfl, h4, h5⟩

/-- C6 counterexample: editing a taskId absent from `tasks` is not
rejected with a NotFoundError — the handler happily writes a task object
under the missing key (spreading `undefined`, so the stored object has no
`id` field) and the board changes; no error result exists anywhere in the
handler. This refutes the claim that the failure is surfaced as a result
distinct from success with the board unchanged. -/
theorem c6_counterexample :
    ∃ b', handleModalSave (some ⟨some "missing", "x", "todo"⟩) 0 initialBoard
        = some b' ∧
      b'.tasks "missing" = some ⟨none, "x"⟩ ∧
      initialBoard.tasks "missing" = none :=
  ⟨_, rfl, rfl, rfl⟩

/-- C6 (amended): create with content that trims to the empty string is
silently ignored — the handler returns early and the board is unchanged,
with no error value distinct from success; edit with a taskId absent from
`tasks` is not rejected — it inserts a task object with the given content
(and no `id` field) under that key, changing the board. -/
theorem c6_silent_validation :
    (∀ (b : BoardData) (mt : ModalTask) (now : Nat), jsTrim mt.content = "" →
      handleModalSave (some mt) now b = some b) ∧
    (∀ (b : BoardData) (tid content cid : String), b.tasks tid = none →
      tid ≠ "" → jsTrim content ≠ "" →
      ∃ b', handleModalSave (some ⟨some tid, content, cid⟩) 0 b = some b' ∧
        b'.tasks tid = some ⟨none, content⟩ ∧
        ∀ k, k ≠ tid → b'.tasks k = b.tasks k) := by
  constructor
  · intro b mt now htrim
    simp [handleModalSave, htrim]
  · intro b tid content cid habs hne htrim
    have htruthy : truthy (some tid) = true := by simp [truthy, hne]
    refine ⟨{ b with tasks := (updateRecord b.tasks tid
        ⟨(b.tasks tid).bind Task.id, content⟩) }, ?_, ?_, ?_⟩
    · simp [handleModalSave, htruthy, htrim]
    · show updateRecord b.tasks tid ⟨(b.tasks tid).bind Task.id, content⟩ tid
        = some ⟨none, content⟩
      rw [updateRecord_self, habs]
      rfl
    · intro k hk
      show updateRecord b.tasks tid ⟨(b.tasks tid).bind Task.id, content⟩ k
        = b.tasks k
      rw [updateRecord_ne _ _ hk]

theorem c6_silent_validation_witness :
    handleModalSave (some ⟨none, " ", "todo"⟩) 0 initialBoard
      = some initialBoard ∧
    (initialBoard.tasks "m" = none ∧
      ∃ b', handleModalSave (some ⟨some "m", "y", "todo"⟩) 0 initialBoard
          = some b' ∧
        b'.tasks "m" = some ⟨none, "y"⟩ ∧
        ∀ k, k ≠ "m" → b'.tasks k = initialBoard.tasks k) :=
  ⟨c6_silent_validation.1 initialBoard ⟨none, " ", "todo"⟩ 0 (by decide),
   rfl, c6_silent_validation.2 initialBoard "m" "y" "todo" rfl
     (by decide) (by decide)⟩

/-- C7 counterexample: deleting an id absent from `tasks` is a silent
successful no-op — the handler returns the unchanged board; it does not
fail with a NotFoundError (no error result exists in the handler). -/
theorem c7_counterexample :
    confirmDelete (some ⟨"ghost", "todo"⟩) initialBoard = some initialBoard := by
  have htasks : eraseRecord initialBoard.tasks "ghost" = initialBoard.tasks := by
    funext s
    by_cases h : s = "ghost"
    · subst h
      rw [eraseRecord_self]
      rfl
    · rw [eraseRecord_ne _ h]
  have hcols : updateRecord initialBoard.columns "todo"
      ⟨"todo", "To Do", "bg-blue-100", "bg-blue-500", []⟩
      = initialBoard.columns := by
    funext s
    by_cases h : s = "todo"
    · subst h
      rw [updateRecord_self]
      rfl
    · rw [updateRecord_ne _ _ h]
  have heval : confirmDelete (some ⟨"ghost", "todo"⟩) initialBoard
      = some { initialBoard with
          tasks := eraseRecord initialBoard.tasks "ghost"
        , columns := (updateRecord initialBoard.columns "todo"
            ⟨"todo", "To Do", "bg-blue-100", "bg-blue-500", []⟩) } := rfl
  rw [heval, htasks, hcols]

/-- C7 (amended): deleting a task that occurs exactly once in the supplied
column removes it from `tasks` and shrinks that column's `taskIds` by
exactly one; deleting an id absent from `tasks` and from the supplied
column returns the board unchanged, but as a silent no-op rather than a
NotFoundError failure. -/
theorem c7_delete_behaviour :
    (∀ (b : BoardData) (tid cid : String) (col : Column),
      b.columns cid = some col → col.taskIds.count tid = 1 →
      ∃ b', confirmDelete (some ⟨tid, cid⟩) b = some b' ∧
        b'.tasks tid = none ∧
        ∃ col', b'.columns cid = some col' ∧
          col'.taskIds.length + 1 = col.taskIds.length) ∧
    (∀ (b : BoardData) (tid cid : String) (col : Column),
      b.columns cid = some col → b.tasks tid = none → tid ∉ col.taskIds →
      confirmDelete (some ⟨tid, cid⟩) b = some b) := by
  constructor
  · intro b tid cid col hcol hcnt
    refine ⟨{ b with
        tasks := eraseRecord b.tasks tid
      , columns := (updateRecord b.columns cid
          { col with taskIds := col.taskIds.filter (fun i => i != tid) }) },
      by simp [confirmDelete, hcol], eraseRecord_self _ _,
      { col with taskIds := col.taskIds.filter (fun i => i != tid) }, ?_, ?_⟩
    · show updateRecord b.columns cid
          { col with taskIds := col.taskIds.filter (fun i => i != tid) } cid
        = some { col with taskIds := col.taskIds.filter (fun i => i != tid) }
      rw [updateRecord_self]
    · show (col.taskIds.filter (fun i => i != tid)).length + 1
        = col.taskIds.length
      have := length_filter_ne col.taskIds tid
      omega
  · intro b tid cid col hcol habs hnmem
    have hfil : col.taskIds.filter (fun i => i != tid) = col.taskIds :=
      List.filter_eq_self.mpr (fun a ha => by
        simp only [bne_iff_ne, ne_eq]
        intro h
        exact hnmem (h ▸ ha))
    have htasks : eraseRecord b.tasks tid = b.tasks := by
      funext s
      by_cases h : s = tid
      · subst h
        rw [eraseRecord_self, habs]
      · rw [eraseRecord_ne _ h]
    have hcols : updateRecord b.columns cid
        { col with taskIds := col.taskIds.filter (fun i => i != tid) }
        = b.columns := by
      funext s
      by_cases h : s = cid
      · subst h
        rw [updateRecord_self, hcol, hfil]
      · rw [updateRecord_ne _ _ h]
    have heval : confirmDelete (some ⟨tid, cid⟩) b
        = some { b with
            tasks := eraseRecord b.tasks tid
          , columns := (updateRecord b.columns cid
              { col with taskIds := col.taskIds.filter (fun i => i != tid) }) } := by
      simp [confirmDelete, hcol]
    rw [heval, htasks, hcols]

theorem c7_delete_behaviour_witness :
    (exampleBoardCross.columns "todo" = some todoColumnCross ∧
      todoColumnCross.taskIds.count "a" = 1 ∧
      ∃ b', confirmDelete (some ⟨"a", "todo"⟩) exampleBoardCross = some b' ∧
        b'.tasks "a" = none ∧
        ∃ col', b'.columns "todo" = some col' ∧
          col'.taskIds.length + 1 = todoColumnCross.taskIds.length) ∧
    confirmDelete (some ⟨"zz", "todo"⟩) exampleBoardCross
      = some exampleBoardCross :=
  ⟨⟨rfl, by decide,
    c7_delete_behaviour.1 exampleBoardCross "a" "todo" todoColumnCross rfl
      (by decide)⟩,
   c7_delete_behaviour.2 exampleBoardCross "zz" "todo" todoColumnCross rfl rfl
     (by decide)⟩

/-- C8 counterexample: two creations at the same timestamp (here 0) both
generate the id `task-0`. After the first create, `task-0` is already a
key of `tasks`, so the id generated for the second create is not fresh;
the second create overwrites the entry and prepends a duplicate
reference. This refutes the claim that an id collision never occurs for
two creations performed at the same timestamp. -/
theorem c8_counterexample :
    ∃ b1, handleModalSave (some ⟨none, "x", "todo"⟩) 0 initialBoard = some b1 ∧
      (b1.tasks ("task-" ++ toString 0)).isSome ∧
      ∃ b2, handleModalSave (some ⟨none, "y", "todo"⟩) 0 b1 = some b2 ∧
        colTaskIds b2 "todo" = ["task-0", "task-0"] :=
  ⟨_, rfl, rfl, _, rfl, rfl⟩

/-- C8 (amended): the generated id is `task-<timestamp>`; it is not
already a key of `tasks` precisely when no existing task has that key.
Two creations performed at the same timestamp generate the same id: at the
second creation that id is already a key, the task entry is overwritten
with the second content, and a duplicate reference is prepended to the
column. -/
theorem c8_collision_at_equal_timestamps {b : BoardData}
    {cid c1 c2 : String} {now : Nat} {col : Column}
    (hcol : b.columns cid = some col)
    (h1 : jsTrim c1 ≠ "") (h2 : jsTrim c2 ≠ "") :
    ∃ b1 b2,
      handleModalSave (some ⟨none, c1, cid⟩) now b = some b1 ∧
      handleModalSave (some ⟨none, c2, cid⟩) now b1 = some b2 ∧
      (b1.tasks ("task-" ++ toString now)).isSome ∧
      b2.tasks ("task-" ++ toString now)
        = some ⟨some ("task-" ++ toString now), c2⟩ ∧
      ∃ col2, b2.columns cid = some col2 ∧
        col2.taskIds = ("task-" ++ toString now)
          :: ("task-" ++ toString now) :: col.taskIds := by
  have e1 := @handleModalSave_create b cid c1 now col hcol h1
  set nid := "task-" ++ toString now with hnid
  set b1 : BoardData := { b with
      tasks := (updateRecord b.tasks nid ⟨some nid, c1⟩)
    , columns := (updateRecord b.columns cid
        { col with taskIds := nid :: col.taskIds }) } with hb1
  have hcol1 : b1.columns cid
      = some { col with taskIds := nid :: col.taskIds } :=
    updateRecord_self _ _ _
  have e2 := @handleModalSave_create b1 cid c2 now _ hcol1 h2
  refine ⟨b1, _, e1, e2, ?_, ?_, ?_⟩
  · show (updateRecord b.tasks nid ⟨some nid, c1⟩ nid).isSome
    rw [updateRecord_self]
    rfl
  · show updateRecord b1.tasks nid ⟨some nid, c2⟩ nid = some ⟨some nid, c2⟩
    rw [updateRecord_self]
  · exact ⟨_, updateRecord_self _ _ _, rfl⟩

theorem c8_collision_at_equal_timestamps_witness :
    initialBoard.columns "todo"
      = some ⟨"todo", "To Do", "bg-blue-100", "bg-blue-500", []⟩ ∧
    jsTrim "x" ≠ "" ∧ jsTrim "y" ≠ "" ∧
    ∃ b1 b2,
      handleModalSave (some ⟨none, "x", "todo"⟩) 0 initialBoard = some b1 ∧
      handleModalSave (some ⟨none, "y", "todo"⟩) 0 b1 = some b2 ∧
      (b1.tasks ("task-" ++ toString 0)).isSome ∧
      b2.tasks ("task-" ++ toString 0)
        = some ⟨some ("task-" ++ toString 0), "y"⟩ ∧
      ∃ col2, b2.columns "todo" = some col2 ∧
        col2.taskIds = ("task-" ++ toString 0) :: ("task-" ++ toString 0) :: [] :=
  ⟨rfl, by decide, by decide,
    @c8_collision_at_equal_timestamps initialBoard "todo" "x" "y" 0
      ⟨"todo", "To Do", "bg-blue-100", "bg-blue-500", []⟩
      rfl (by decide) (by decide)⟩

/-- C4 counterexample. First conjunct: a stale report — `todo = [a, b]` but
the report claims `b` sits at index 0 — is applied rather than rejected:
the handler removes whatever is at index 0 and inserts the reported id,
yielding the corrupted sequence `[b, b]` (no ConflictError exists).
Second conjunct: a destination index far beyond the bounds (5 on a
two-element column) is clamped by splice and applied rather than rejected
with a ValidationError. In both cases the board changes, refuting "fails
and returns the board unchanged". -/
theorem c4_counterexample :
    (colTaskIds exampleBoardCross "todo" = ["a", "b"] ∧
      ∃ b', onDragEnd ⟨"b", ⟨"todo", 0⟩, some ⟨"todo", 1⟩⟩ exampleBoardCross
          = some b' ∧
        colTaskIds b' "todo" = ["b", "b"]) ∧
    (∃ b2, onDragEnd ⟨"a", ⟨"todo", 0⟩, some ⟨"todo", 5⟩⟩ exampleBoardCross
        = some b2 ∧
      colTaskIds b2 "todo" = ["b", "a"]) :=
  ⟨⟨rfl, _, rfl, rfl⟩, _, rfl, rfl⟩

/-- C4 (amended): `onDragEnd` never rejects a report. A report with no
destination, or with destination equal to its source position, returns
the board unchanged; every other report over existing columns is applied
unconditionally (a stale source index splices whatever id sits there and
inserts the reported taskId, and an out-of-range destIndex is clamped);
there is no ConflictError or ValidationError result. -/
theorem c4_no_rejection :
    (∀ (r : DropResult) (b : BoardData), r.destination = none →
      onDragEnd r b = some b) ∧
    (∀ (r : DropResult) (b : BoardData) (d : DropLocation),
      r.destination = some d → d.droppableId = r.source.droppableId →
      d.index = r.source.index → onDragEnd r b = some b) ∧
    (∀ (r : DropResult) (b : BoardData) (d : DropLocation),
      r.destination = some d → (b.columns r.source.droppableId).isSome →
      (b.columns d.droppableId).isSome → (onDragEnd r b).isSome) := by
  refine ⟨?_, ?_, ?_⟩
  · intro r b h
    simp [onDragEnd, h]
  · intro r b d h h1 h2
    simp [onDragEnd, h, h1, h2]
  · intro r b d h h1 h2
    obtain ⟨scol, hs⟩ := Option.isSome_iff_exists.mp h1
    obtain ⟨fcol, hf⟩ := Option.isSome_iff_exists.mp h2
    simp only [onDragEnd, h]
    by_cases hg : d.droppableId = r.source.droppableId ∧ d.index = r.source.index
    · rw [if_pos hg]
      rfl
    · rw [if_neg hg]
      simp only [hs, hf]
      by_cases hsame : r.source.droppableId = d.droppableId
      · rw [if_pos hsame]
        rfl
      · rw [if_neg hsame]
        rfl

theorem c4_no_rejection_witness :
    onDragEnd ⟨"a", ⟨"todo", 0⟩, none⟩ exampleBoardCross
      = some exampleBoardCross ∧
    onDragEnd ⟨"a", ⟨"todo", 0⟩, some ⟨"todo", 0⟩⟩ exampleBoardCross
      = some exampleBoardCross ∧
    (onDragEnd ⟨"b", ⟨"todo", 0⟩, some ⟨"done", 3⟩⟩ exampleBoardCross).isSome :=
  ⟨c4_no_rejection.1 ⟨"a", ⟨"todo", 0⟩, none⟩ exampleBoardCross rfl,
   c4_no_rejection.2.1 ⟨"a", ⟨"todo", 0⟩, some ⟨"todo", 0⟩⟩ exampleBoardCross
     ⟨"todo", 0⟩ rfl rfl rfl,
   c4_no_rejection.2.2 ⟨"b", ⟨"todo", 0⟩, some ⟨"done", 3⟩⟩ exampleBoardCross
     ⟨"done", 3⟩ rfl (by decide) (by decide)⟩

/-- C9 counterexample: the state logic enforces no length bound. A content
of 301 characters (the UI textarea's maxLength is 300, but that attribute
lives in the rendering layer, not in the save handler) is stored verbatim
by the create branch rather than rejected with a ValidationError. -/
theorem c9_counterexample :
    300 < (String.mk (List.replicate 301 'a')).length ∧
    ∃ b', handleModalSave
        (some ⟨none, String.mk (List.replicate 301 'a'), "todo"⟩) 0 initialBoard
        = some b' ∧
      b'.tasks "task-0"
        = some ⟨some "task-0", String.mk (List.replicate 301 'a')⟩ := by
  refine ⟨?_, ?_⟩
  · show 300 < (List.replicate 301 'a').length
    rw [List.length_replicate]
    omega
  · have e1 := @handleModalSave_create initialBoard "todo"
      (String.mk (List.replicate 301 'a')) 0
      ⟨"todo", "To Do", "bg-blue-100", "bg-blue-500", []⟩ rfl (by decide)
    refine ⟨_, e1, ?_⟩
    show updateRecord initialBoard.tasks ("task-" ++ toString 0)
        ⟨some ("task-" ++ toString 0), String.mk (List.replicate 301 'a')⟩
        "task-0"
      = some ⟨some "task-0", String.mk (List.replicate 301 'a')⟩
    have e : ("task-" ++ toString 0 : String) = "task-0" := by decide
    rw [e, updateRecord_self]

/-- C9 (amended): after every valid operation every stored task content
trims to a non-empty string (the handler's only content check); no upper
length bound is enforced by the state logic — the 300-character limit
exists only as the UI textarea's maxLength attribute, and oversized
content reaching the handler is stored, not rejected. -/
theorem c9_contents_trim_nonempty {b : BoardData} (h : Reaches b) :
    ∀ k t, b.tasks k = some t → jsTrim t.content ≠ "" :=
  (reaches_good h).contentOk

theorem c9_contents_trim_nonempty_witness : jsTrim "x" ≠ "" :=
  c9_contents_trim_nonempty
    (Reaches.step (Op.createTask "todo" "x" 0) Reaches.init
      ⟨by decide, by decide, rfl⟩ rfl)
    "task-0" ⟨some "task-0", "x"⟩ rfl

/-- C10: for every board and delete request `(taskId, columnId)` with an
existing column, `confirmDelete` removes `taskId` from `tasks`
unconditionally but filters it only out of the supplied column, leaving
every other column untouched; consequently (second conjunct, on a board
whose task `x` lives in `done`) deleting with the wrong column id leaves
the removed id dangling in the other column. -/
theorem c10_delete_filters_only_supplied_column :
    (∀ (b : BoardData) (tid cid : String) (col : Column),
      b.columns cid = some col →
      ∃ b', confirmDelete (some ⟨tid, cid⟩) b = some b' ∧
        b'.tasks tid = none ∧
        b'.columns cid
          = some { col with taskIds := col.taskIds.filter (fun i => i != tid) } ∧
        (∀ c, c ≠ cid → b'.columns c = b.columns c) ∧
        (∀ k, k ≠ tid → b'.tasks k = b.tasks k)) ∧
    (∃ b', confirmDelete (some ⟨"x", "todo"⟩) exampleBoardDangling = some b' ∧
      b'.tasks "x" = none ∧
      ∃ col, b'.columns "done" = some col ∧ "x" ∈ col.taskIds) := by
  constructor
  · intro b tid cid col hcol
    refine ⟨{ b with
        tasks := eraseRecord b.tasks tid
      , columns := (updateRecord b.columns cid
          { col with taskIds := col.taskIds.filter (fun i => i != tid) }) },
      by simp [confirmDelete, hcol], eraseRecord_self _ _,
      updateRecord_self _ _ _, ?_, ?_⟩
    · intro c hc
      exact updateRecord_ne _ _ hc
    · intro k hk
      exact eraseRecord_ne _ hk
  · exact ⟨_, rfl, rfl, ⟨"done", "Done", "", "", ["x"]⟩, rfl, by decide⟩

theorem c10_delete_filters_only_supplied_column_witness :
    exampleBoardCross.columns "todo" = some todoColumnCross ∧
    ∃ b', confirmDelete (some ⟨"a", "todo"⟩) exampleBoardCross = some b' ∧
      b'.tasks "a" = none ∧
      b'.columns "todo"
        = some { todoColumnCross with
            taskIds := todoColumnCross.taskIds.filter (fun i => i != "a") } ∧
      (∀ c, c ≠ "todo" → b'.columns c = exampleBoardCross.columns c) ∧
      (∀ k, k ≠ "a" → b'.tasks k = exampleBoardCross.tasks k) :=
  ⟨rfl, c10_delete_filters_only_supplied_column.1 exampleBoardCross "a" "todo"
    todoColumnCross rfl⟩

end TaskBoard
